import Mathlib

/-!
Shallow embedding of the AMM math engine of the DipCoin DEX client
(class SwapMath, file src/utils/swap_math.ts).

The source computes on BigNumber (arbitrary-precision decimal) values.
All inputs of interest are unsigned integers (the data model binds every
amount, reserve, fee rate and LP supply to the unsigned 64-bit domain),
so we embed the arithmetic over Nat, and over Int where the source can
produce negative values.  BigNumber conventions mirrored here:

* `a.multipliedBy(b)` on integers is exact multiplication;
* `a.dividedBy(b).integerValue(ROUND_DOWN)` rounds the quotient toward
  zero: on nonnegative integers this is Nat floor division, on a
  negative quotient it is Int truncated division (`Int.tdiv`);
* `a.dividedBy(0)` yields Infinity when `a > 0` (and NaN when `a = 0`);
  `Infinity.isGreaterThan(U64_MAX)` is true, so an Infinity produced
  before a U64 bound check surfaces as the "U64 overflow" throw, while
  comparisons against NaN are all false;
* `a.sqrt().integerValue(ROUND_DOWN)` on a nonnegative integer is
  `Nat.sqrt`;
* `a.minus(b)` may go negative, hence Int where the source allows it.

Thrown `Error`s are embedded as `Except.error` of an inductive whose
constructors are named after the thrown message strings.
-/

/-- The error kinds thrown by SwapMath, one constructor per thrown
message string: "Division by zero", "U64 overflow", "Over limit",
"Invalid fee rate", "Zero amount", "Reserves empty", "Incorrect swap". -/
inductive SwapError where
  | divisionByZero
  | overflow
  | overLimit
  | invalidFeeRate
  | zeroAmount
  | emptyReserves
  | incorrectSwap
  deriving DecidableEq, Repr

/-- Decidable equality for Except results, so that concrete runs of the
embedded functions can be checked by `decide`. -/
instance {ε α : Type} [DecidableEq ε] [DecidableEq α] : DecidableEq (Except ε α) := fun a b =>
  match a, b with
  | .ok x, .ok y =>
      if h : x = y then .isTrue (by rw [h]) else .isFalse fun c => h (Except.ok.inj c)
  | .error e, .error f =>
      if h : e = f then .isTrue (by rw [h]) else .isFalse fun c => h (Except.error.inj c)
  | .ok _, .error _ => .isFalse fun c => Except.noConfusion c
  | .error _, .ok _ => .isFalse fun c => Except.noConfusion c

/-- SwapMath.U64_MAX = 18446744073709551615. -/
def U64_MAX : ℕ := 18446744073709551615

/-- SwapMath.MAX_FEE_RATE = 2000. -/
def MAX_FEE_RATE : ℕ := 2000

/-- SwapMath.FEE_SCALE = 10000. -/
def FEE_SCALE : ℕ := 10000

/-- SwapMath.mulDiv: floor(x*y/z); throws "Division by zero" when z = 0
and "U64 overflow" when the result exceeds U64_MAX. -/
def mulDiv (x y z : ℕ) : Except SwapError ℕ :=
  if z = 0 then .error .divisionByZero
  else
    let result := x * y / z
    if U64_MAX < result then .error .overflow
    else .ok result

/-- SwapMath.calcOptimalCoinValues: optimal (x, y) contribution for an
add-liquidity against reserves (coinXReserve, coinYReserve). -/
def calcOptimalCoinValues (coinXDesired coinYDesired coinXReserve coinYReserve : ℕ) :
    Except SwapError (ℕ × ℕ) :=
  if coinXReserve = 0 ∧ coinYReserve = 0 then
    .ok (coinXDesired, coinYDesired)
  else do
    let coinYReturned ← mulDiv coinXDesired coinYReserve coinXReserve
    if coinYReturned ≤ coinYDesired then
      pure (coinXDesired, coinYReturned)
    else do
      let coinXReturned ← mulDiv coinYDesired coinXReserve coinYReserve
      if coinXDesired < coinXReturned then .error .overLimit
      else pure (coinXReturned, coinYDesired)

/-- A BigNumber value as produced by the division steps of
SwapMath.getExpectedLiquidityAmount: a finite integer, Infinity
(positive numerator divided by zero) or NaN (zero divided by zero). -/
inductive BnValue where
  | fin (n : ℤ)
  | inf
  | nan
  deriving DecidableEq, Repr

/-- product.dividedBy(reserve).integerValue(ROUND_DOWN) on nonnegative
BigNumber integers: floor division when the divisor is nonzero,
Infinity or NaN when it is zero. -/
def bnDivFloor (product reserve : ℕ) : BnValue :=
  if reserve = 0 then (if product = 0 then .nan else .inf)
  else .fin ((product / reserve : ℕ) : ℤ)

/-- Comparison a.isLessThan(b) on such values: every comparison
involving NaN is false; Infinity is not less than anything, and any
finite value is less than Infinity. -/
def bnLt : BnValue → BnValue → Bool
  | .fin a, .fin b => decide (a < b)
  | .fin _, .inf => true
  | .fin _, .nan => false
  | .inf, _ => false
  | .nan, _ => false

/-- Bound check a.isGreaterThan(U64_MAX) on such values: true for
Infinity, false for NaN. -/
def bnGtU64 : BnValue → Bool
  | .fin a => decide ((U64_MAX : ℤ) < a)
  | .inf => true
  | .nan => false

/-- SwapMath.getExpectedLiquidityAmount: LP tokens minted for an
add-liquidity.  First branch (both reserves and the LP supply zero):
floor(sqrt(x*y)) - 1000, which BigNumber lets go negative.  Second
branch: the smaller of the two proportional amounts, each computed by
bnDivFloor (a zero reserve is reachable here and yields Infinity/NaN,
mirrored exactly). -/
def getExpectedLiquidityAmount (optimalCoinX optimalCoinY coinXReserve coinYReserve lpSupply : ℕ) :
    Except SwapError BnValue :=
  if coinXReserve = 0 ∧ coinYReserve = 0 ∧ lpSupply = 0 then
    let liquidityAmount : ℤ := (Nat.sqrt (optimalCoinX * optimalCoinY) : ℤ) - 1000
    if (U64_MAX : ℤ) < liquidityAmount then .error .overflow
    else .ok (.fin liquidityAmount)
  else
    let xLiq := bnDivFloor (lpSupply * optimalCoinX) coinXReserve
    let yLiq := bnDivFloor (lpSupply * optimalCoinY) coinYReserve
    if bnLt xLiq yLiq then
      if bnGtU64 xLiq then .error .overflow else .ok xLiq
    else
      if bnGtU64 yLiq then .error .overflow else .ok yLiq

/-- SwapMath.getFeeToTeam: one fifth of the pool fee on coinIn. -/
def getFeeToTeam (feeRate coinIn : ℕ) : Except SwapError ℕ := do
  let fee ← mulDiv coinIn feeRate FEE_SCALE
  pure (fee / 5)

/-- SwapMath.getAmountOut: constant-product swap output with the fee
taken from the input side.  The feeRate = 0 branch of the source only
emits a console.log and does not affect the returned value, so it is
not represented. -/
def getAmountOut (feeRate amountIn reserveIn reserveOut : ℕ) : Except SwapError ℕ :=
  if MAX_FEE_RATE < feeRate then .error .invalidFeeRate
  else if amountIn = 0 then .error .zeroAmount
  else if reserveIn = 0 ∨ reserveOut = 0 then .error .emptyReserves
  else
    let feeMultiplier := FEE_SCALE - feeRate
    let coinInValAfterFees := amountIn * feeMultiplier
    let newReserveIn := reserveIn * FEE_SCALE + coinInValAfterFees
    let amountOut := coinInValAfterFees * reserveOut / newReserveIn
    if U64_MAX < amountOut then .error .overflow
    else .ok amountOut

/-- SwapMath.getAmountIn: exact-output swap input.  The source computes
numerator/denominator on BigNumber: when reserveOut = amountOut the
denominator is 0 and the positive numerator divided by 0 is Infinity,
which then trips the `isGreaterThan(U64_MAX)` check, i.e. the call
throws "U64 overflow"; when reserveOut < amountOut the denominator is
negative and `integerValue(ROUND_DOWN)` truncates the negative quotient
toward zero (`Int.tdiv`), so the function can return a negative value. -/
def getAmountIn (feeRate amountOut reserveIn reserveOut : ℕ) : Except SwapError ℤ :=
  if MAX_FEE_RATE < feeRate then .error .invalidFeeRate
  else if amountOut = 0 then .error .zeroAmount
  else if reserveIn = 0 ∨ reserveOut = 0 then .error .emptyReserves
  else
    let feeMultiplier := FEE_SCALE - feeRate
    let numerator : ℤ := (reserveIn : ℤ) * (amountOut : ℤ) * (FEE_SCALE : ℤ)
    let denominator : ℤ := ((reserveOut : ℤ) - (amountOut : ℤ)) * (feeMultiplier : ℤ)
    if denominator = 0 then .error .overflow
    else
      let amountIn : ℤ := numerator.tdiv denominator + 1
      if (U64_MAX : ℤ) < amountIn then .error .overflow
      else .ok amountIn

/-- SwapMath.assertLpValueIsIncreased: throws "Incorrect swap" when the
old product of reserves exceeds the new one. -/
def assertLpValueIsIncreased (oldReserveX oldReserveY newReserveX newReserveY : ℕ) :
    Except SwapError Unit :=
  if newReserveX * newReserveY < oldReserveX * oldReserveY then .error .incorrectSwap
  else .ok ()

/-! ### Helper lemmas -/

/-- Truncating division of two cast naturals is cast Nat division. -/
lemma int_tdiv_coe (m n : ℕ) : (m : ℤ).tdiv (n : ℤ) = ((m / n : ℕ) : ℤ) := rfl

/-- mulDiv never throws the "Over limit" error. -/
lemma mulDiv_ne_overLimit (x y z : ℕ) : mulDiv x y z ≠ .error .overLimit := by
  simp only [mulDiv]
  split_ifs <;> simp

/-- A successful mulDiv returns the floor quotient. -/
lemma mulDiv_ok_val {x y z r : ℕ} (h : mulDiv x y z = .ok r) : r = x * y / z := by
  simp only [mulDiv] at h
  split_ifs at h <;> simp_all

/-- mulDiv succeeds exactly on a nonzero divisor and an in-bound quotient. -/
lemma mulDiv_eq_ok {x y z : ℕ} (hz : z ≠ 0) (hb : x * y / z ≤ U64_MAX) :
    mulDiv x y z = .ok (x * y / z) := by
  unfold mulDiv
  rw [if_neg hz, if_neg (by omega)]

/-! ### Claim theorems -/

/-- Claim C8: mulDiv(x, y, z) fails with DivisionByZero if and only if
z = 0; when z is nonzero it fails with Overflow if and only if
floor(x*y/z) exceeds U64_MAX and otherwise returns exactly
floor(x*y/z); in particular mulDiv(U64_MAX, 2, 1) fails with Overflow
and mulDiv(x, y, 0) fails with DivisionByZero for all x, y. -/
theorem mulDiv_error_spec (x y z : ℕ) :
    (mulDiv x y z = .error .divisionByZero ↔ z = 0)
    ∧ (z ≠ 0 →
        (mulDiv x y z = .error .overflow ↔ U64_MAX < x * y / z)
        ∧ (x * y / z ≤ U64_MAX → mulDiv x y z = .ok (x * y / z)))
    ∧ mulDiv U64_MAX 2 1 = .error .overflow
    ∧ mulDiv x y 0 = .error .divisionByZero := by
  refine ⟨?_, fun hz => ?_, by decide, by simp [mulDiv]⟩
  · simp only [mulDiv]
    split_ifs with hz hov <;> simp [hz]
  · simp only [mulDiv, if_neg hz]
    split_ifs with hov
    · exact ⟨by simp [hov], fun h => absurd hov (by omega)⟩
    · exact ⟨by simp [hov], fun _ => rfl⟩

/-- Witness for C8 at z = 4. -/
theorem mulDiv_error_spec_witness : mulDiv 7 6 4 = .ok (7 * 6 / 4) :=
  ((mulDiv_error_spec 7 6 4).2.1 (by decide)).2 (by decide)

/-- Claim C9: getAmountOut fails with InvalidFeeRate exactly when the
fee rate exceeds MAX_FEE_RATE = 2000 (so the check passes at 2000);
for an admissible fee rate it fails with ZeroAmount when amountIn = 0,
and with EmptyReserves when amountIn is positive but a reserve is
zero. -/
theorem getAmountOut_guards (feeRate amountIn reserveIn reserveOut : ℕ) :
    (2000 < feeRate →
      getAmountOut feeRate amountIn reserveIn reserveOut = .error .invalidFeeRate)
    ∧ (feeRate ≤ 2000 →
      getAmountOut feeRate amountIn reserveIn reserveOut ≠ .error .invalidFeeRate)
    ∧ (feeRate ≤ 2000 → amountIn = 0 →
      getAmountOut feeRate amountIn reserveIn reserveOut = .error .zeroAmount)
    ∧ (feeRate ≤ 2000 → 0 < amountIn → (reserveIn = 0 ∨ reserveOut = 0) →
      getAmountOut feeRate amountIn reserveIn reserveOut = .error .emptyReserves) := by
  have hmax : MAX_FEE_RATE = 2000 := rfl
  refine ⟨fun h => ?_, fun h => ?_, fun h h0 => ?_, fun h h0 hr => ?_⟩
  · simp [getAmountOut, hmax, h]
  · simp only [getAmountOut, hmax, Nat.not_lt.2 h, if_false]
    split_ifs <;> simp
  · simp [getAmountOut, hmax, Nat.not_lt.2 h, h0]
  · simp [getAmountOut, hmax, Nat.not_lt.2 h, h0.ne', hr]

/-- Witness for C9: the three error kinds at concrete inputs, and the
fee-rate check passing at exactly 2000. -/
theorem getAmountOut_guards_witness :
    getAmountOut 2001 5 7 9 = .error .invalidFeeRate
    ∧ getAmountOut 2000 5 7 9 ≠ .error .invalidFeeRate
    ∧ getAmountOut 2000 0 7 9 = .error .zeroAmount
    ∧ getAmountOut 2000 5 0 9 = .error .emptyReserves :=
  ⟨(getAmountOut_guards 2001 5 7 9).1 (by decide),
   (getAmountOut_guards 2000 5 7 9).2.1 (by decide),
   (getAmountOut_guards 2000 0 7 9).2.2.1 (by decide) rfl,
   (getAmountOut_guards 2000 5 0 9).2.2.2 (by decide) (by decide) (Or.inl rfl)⟩

/-- Claim C10: with exactly one zero reserve, calcOptimalCoinValues is
asymmetric: a zero X reserve against a positive Y reserve fails with
DivisionByZero through mulDiv, while a positive X reserve against a
zero Y reserve returns (xDesired, 0) without failing. -/
theorem calcOptimalCoinValues_one_empty_reserve (xDesired yDesired xReserve yReserve : ℕ) :
    (0 < yReserve →
      calcOptimalCoinValues xDesired yDesired 0 yReserve = .error .divisionByZero)
    ∧ (0 < xReserve →
      calcOptimalCoinValues xDesired yDesired xReserve 0 = .ok (xDesired, 0)) := by
  constructor
  · intro h
    simp [calcOptimalCoinValues, mulDiv, h.ne', Bind.bind, Except.bind, Pure.pure, Except.pure]
  · intro h
    simp [calcOptimalCoinValues, mulDiv, h.ne', Bind.bind, Except.bind, Pure.pure, Except.pure]

/-- Witness for C10 at reserves (0, 3) and (3, 0). -/
theorem calcOptimalCoinValues_one_empty_reserve_witness :
    calcOptimalCoinValues 5 7 0 3 = .error .divisionByZero
    ∧ calcOptimalCoinValues 5 7 3 0 = .ok (5, 0) :=
  ⟨(calcOptimalCoinValues_one_empty_reserve 5 7 9 3).1 (by decide),
   (calcOptimalCoinValues_one_empty_reserve 5 7 3 9).2 (by decide)⟩

/-- Claim C6: with both reserves positive the defensive OverLimit check
of calcOptimalCoinValues is unreachable: in the branch where the Y
amount implied by xDesired exceeds yDesired, the X amount implied by
yDesired never exceeds xDesired. -/
theorem calcOptimalCoinValues_no_overLimit (xDesired yDesired xReserve yReserve : ℕ)
    (hx : 0 < xReserve) (hy : 0 < yReserve) :
    calcOptimalCoinValues xDesired yDesired xReserve yReserve ≠ .error .overLimit := by
  unfold calcOptimalCoinValues
  rw [if_neg (by rintro ⟨h1, h2⟩; omega)]
  cases hmd : mulDiv xDesired yReserve xReserve with
  | error e =>
    intro hc
    simp only [Bind.bind, Except.bind] at hc
    injection hc with h
    exact mulDiv_ne_overLimit xDesired yReserve xReserve (by rw [hmd, h])
  | ok yRet =>
    simp only [Bind.bind, Except.bind]
    split_ifs with hle
    · simp [Pure.pure, Except.pure]
    · cases hmd2 : mulDiv yDesired xReserve yReserve with
      | error e =>
        intro hc
        simp only [Bind.bind, Except.bind] at hc
        injection hc with h
        exact mulDiv_ne_overLimit yDesired xReserve yReserve (by rw [hmd2, h])
      | ok xRet =>
        simp only [Bind.bind, Except.bind]
        have hyret : yRet = xDesired * yReserve / xReserve := mulDiv_ok_val hmd
        have hxret : xRet = yDesired * xReserve / yReserve := mulDiv_ok_val hmd2
        have hkey : yDesired * xReserve < xDesired * yReserve := by
          have h1 : yDesired + 1 ≤ xDesired * yReserve / xReserve := by omega
          have h2 : (yDesired + 1) * xReserve ≤ xDesired * yReserve :=
            (Nat.le_div_iff_mul_le hx).1 h1
          nlinarith
        have hle2 : xRet ≤ xDesired := by
          have hq : yDesired * xReserve / yReserve < xDesired + 1 :=
            (Nat.div_lt_iff_lt_mul hy).2 (by nlinarith)
          omega
        rw [if_neg (by omega)]
        simp [Pure.pure, Except.pure]

/-- Witness for C6 at a branch that exercises the second mulDiv. -/
theorem calcOptimalCoinValues_no_overLimit_witness :
    calcOptimalCoinValues 10 3 2 7 ≠ .error .overLimit :=
  calcOptimalCoinValues_no_overLimit 10 3 2 7 (by decide) (by decide)

/-- Claim C5: a successful calcOptimalCoinValues never exceeds the
desired amounts componentwise, and on two zero reserves it returns the
desired amounts unchanged. -/
theorem calcOptimalCoinValues_le_desired (xDesired yDesired xReserve yReserve : ℕ) :
    (∀ p, calcOptimalCoinValues xDesired yDesired xReserve yReserve = .ok p →
      p.1 ≤ xDesired ∧ p.2 ≤ yDesired)
    ∧ (xReserve = 0 → yReserve = 0 →
      calcOptimalCoinValues xDesired yDesired xReserve yReserve = .ok (xDesired, yDesired)) := by
  constructor
  · intro p hp
    unfold calcOptimalCoinValues at hp
    split_ifs at hp with h0
    · injection hp with h
      subst h
      exact ⟨le_refl _, le_refl _⟩
    · rcases hmd : mulDiv xDesired yReserve xReserve with e | yRet <;>
        rw [hmd] at hp <;> simp only [Bind.bind, Except.bind] at hp
      · exact Except.noConfusion hp
      · split_ifs at hp with hle
        · simp only [Pure.pure, Except.pure] at hp
          injection hp with h
          subst h
          exact ⟨le_refl _, hle⟩
        · rcases hmd2 : mulDiv yDesired xReserve yReserve with e | xRet <;>
            rw [hmd2] at hp <;> simp only [Bind.bind, Except.bind] at hp
          · exact Except.noConfusion hp
          · split_ifs at hp with hgt
            simp only [Pure.pure, Except.pure] at hp
            injection hp with h
            subst h
            exact ⟨by omega, le_refl _⟩
  · intro hx hy
    simp [calcOptimalCoinValues, hx, hy]

/-- Witness for C5: both conjuncts at concrete inputs. -/
theorem calcOptimalCoinValues_le_desired_witness :
    100 ≤ 100 ∧ 200 ≤ 300 ∧ calcOptimalCoinValues 1000 2000 0 0 = .ok (1000, 2000) := by
  have h1 := (calcOptimalCoinValues_le_desired 100 300 1000 2000).1 (100, 200) (by decide)
  have h2 := (calcOptimalCoinValues_le_desired 1000 2000 0 0).2 rfl rfl
  exact ⟨h1.1, h1.2, h2⟩

/-- With its guards passed, getAmountOut is the guarded floor of
amountIn(10000 - feeRate)reserveOut / (reserveIn 10000 + amountIn(10000 - feeRate)). -/
lemma getAmountOut_formula (feeRate amountIn reserveIn reserveOut : ℕ)
    (hf : feeRate ≤ 2000) (ha : amountIn ≠ 0) (hri : reserveIn ≠ 0) (hro : reserveOut ≠ 0) :
    getAmountOut feeRate amountIn reserveIn reserveOut =
      if U64_MAX < amountIn * (10000 - feeRate) * reserveOut /
          (reserveIn * 10000 + amountIn * (10000 - feeRate)) then .error .overflow
      else .ok (amountIn * (10000 - feeRate) * reserveOut /
          (reserveIn * 10000 + amountIn * (10000 - feeRate))) := by
  have h1 : ¬ MAX_FEE_RATE < feeRate := by
    simp only [MAX_FEE_RATE]
    omega
  simp [getAmountOut, h1, ha, hri, hro, FEE_SCALE]

/-- Core constant-product bounds: the swap output q is strictly below
the output reserve, the product inequality (rIn + aIn) q ≤ aIn rOut
holds, and the numerator bound needed for the exact-input round trip. -/
lemma amm_key (m aIn rIn rOut q : ℕ) (hm : 0 < m) (hm2 : m ≤ 10000)
    (hrIn : 0 < rIn) (hrOut : 0 < rOut) (haIn : 0 < aIn)
    (hq : q = aIn * m * rOut / (rIn * 10000 + aIn * m)) :
    q < rOut ∧ (rIn + aIn) * q ≤ aIn * rOut
      ∧ rIn * q * 10000 ≤ aIn * ((rOut - q) * m) := by
  have hD : 0 < rIn * 10000 + aIn * m := by positivity
  have h1 : q * (rIn * 10000 + aIn * m) ≤ aIn * m * rOut := by
    rw [hq]
    exact Nat.div_mul_le_self _ _
  have hlt : q < rOut := by
    rw [hq]
    exact (Nat.div_lt_iff_lt_mul hD).2 (by nlinarith)
  have hint : (0 : ℤ) ≤ (aIn : ℤ) * ((10000 : ℤ) - (m : ℤ)) * ((rOut : ℤ) - (q : ℤ)) :=
    mul_nonneg (mul_nonneg (by positivity) (by omega)) (by omega)
  refine ⟨hlt, ?_, ?_⟩
  · zify
    zify at h1
    nlinarith [h1, hint]
  · zify [hlt.le]
    zify at h1
    nlinarith [h1]

/-- Claim C3: with a valid fee rate, positive input and positive
reserves, getAmountOut returns exactly the floor of
amountIn(10000 - feeRate)reserveOut over
(reserveIn 10000 + amountIn(10000 - feeRate)), failing with Overflow
exactly when that value exceeds U64_MAX. -/
theorem getAmountOut_exact (feeRate amountIn reserveIn reserveOut : ℕ)
    (hf : feeRate ≤ 2000) (ha : 0 < amountIn) (hri : 0 < reserveIn) (hro : 0 < reserveOut) :
    getAmountOut feeRate amountIn reserveIn reserveOut =
      if U64_MAX < amountIn * (10000 - feeRate) * reserveOut /
          (reserveIn * 10000 + amountIn * (10000 - feeRate)) then .error .overflow
      else .ok (amountIn * (10000 - feeRate) * reserveOut /
          (reserveIn * 10000 + amountIn * (10000 - feeRate))) :=
  getAmountOut_formula feeRate amountIn reserveIn reserveOut hf ha.ne' hri.ne' hro.ne'

/-- Witness for C3: the golden swap example, amountOut =
floor(9970000 * 2000000 / 10009970000) = 1992. -/
theorem getAmountOut_exact_witness :
    getAmountOut 30 1000 1000000 2000000 = .ok (9970000 * 2000000 / 10009970000)
    ∧ 9970000 * 2000000 / 10009970000 = 1992 := by
  have h := getAmountOut_exact 30 1000 1000000 2000000
    (by decide) (by decide) (by decide) (by decide)
  rw [h]
  exact ⟨by decide, by decide⟩

/-- Claim C1: every successful getAmountOut keeps the constant product
non-decreasing, so assertLpValueIsIncreased accepts the new reserves. -/
theorem getAmountOut_preserves_product (feeRate amountIn reserveIn reserveOut amountOut : ℕ)
    (hf : feeRate ≤ 2000) (ha : 0 < amountIn) (hri : 0 < reserveIn) (hro : 0 < reserveOut)
    (h : getAmountOut feeRate amountIn reserveIn reserveOut = .ok amountOut) :
    reserveIn * reserveOut ≤ (reserveIn + amountIn) * (reserveOut - amountOut)
    ∧ assertLpValueIsIncreased reserveIn reserveOut
        (reserveIn + amountIn) (reserveOut - amountOut) = .ok () := by
  rw [getAmountOut_formula feeRate amountIn reserveIn reserveOut hf ha.ne' hri.ne' hro.ne'] at h
  split_ifs at h with hov
  injection h with h'
  obtain ⟨hlt, hkey, -⟩ := amm_key (10000 - feeRate) amountIn reserveIn reserveOut amountOut
    (by omega) (by omega) hri hro ha h'.symm
  have hmain : reserveIn * reserveOut ≤ (reserveIn + amountIn) * (reserveOut - amountOut) := by
    zify [hlt.le]
    zify at hkey
    nlinarith [hkey]
  refine ⟨hmain, ?_⟩
  unfold assertLpValueIsIncreased
  rw [if_neg (not_lt.2 hmain)]

/-- Witness for C1 at the golden swap example. -/
theorem getAmountOut_preserves_product_witness :
    1000000 * 2000000 ≤ (1000000 + 1000) * (2000000 - 1992)
    ∧ assertLpValueIsIncreased 1000000 2000000 (1000000 + 1000) (2000000 - 1992) = .ok () :=
  getAmountOut_preserves_product 30 1000 1000000 2000000 1992
    (by decide) (by decide) (by decide) (by decide) (by decide)

/-- Counterexample to C2 as stated: at feeRate 30, amountIn 10000,
reserveIn 9970, reserveOut 2 the swap output is exactly 1 and the
recovered exact-output input is 10001 > 10000; the same happens at
feeRate 0 with amountIn 1, reserves (1, 2).  The ceiling correction
(+1) overshoots by one exactly when the interior division is exact. -/
theorem getAmountIn_roundtrip_cex :
    getAmountOut 30 10000 9970 2 = .ok 1
    ∧ getAmountIn 30 1 9970 2 = .ok 10001
    ∧ ¬ ((10001 : ℤ) ≤ (10000 : ℤ))
    ∧ getAmountOut 0 1 1 2 = .ok 1
    ∧ getAmountIn 0 1 1 2 = .ok 2
    ∧ ¬ ((2 : ℤ) ≤ (1 : ℤ)) := by
  refine ⟨by decide, by decide, by decide, by decide, by decide, by decide⟩

/-- Claim C2 amended: for valid inputs with a positive swap output, a
successful getAmountIn on that output returns at most amountIn + 1
(the as-stated bound amountIn fails only by the +1 ceiling correction
when the division is exact). -/
theorem getAmountIn_roundtrip (feeRate amountIn reserveIn reserveOut amountOut : ℕ) (v : ℤ)
    (hf : feeRate ≤ 2000) (ha : 0 < amountIn) (hri : 0 < reserveIn) (hro : 0 < reserveOut)
    (h : getAmountOut feeRate amountIn reserveIn reserveOut = .ok amountOut)
    (hpos : 0 < amountOut)
    (h2 : getAmountIn feeRate amountOut reserveIn reserveOut = .ok v) :
    v ≤ (amountIn : ℤ) + 1 := by
  rw [getAmountOut_formula feeRate amountIn reserveIn reserveOut hf ha.ne' hri.ne' hro.ne'] at h
  split_ifs at h with hov
  injection h with h'
  obtain ⟨hlt, -, hnum⟩ := amm_key (10000 - feeRate) amountIn reserveIn reserveOut amountOut
    (by omega) (by omega) hri hro ha h'.symm
  simp only [getAmountIn] at h2
  split_ifs at h2
  injection h2 with h2'
  rw [show ((reserveIn : ℤ) * (amountOut : ℤ) * ((FEE_SCALE : ℕ) : ℤ)) =
      ((reserveIn * amountOut * FEE_SCALE : ℕ) : ℤ) by push_cast; ring,
    show (((reserveOut : ℤ) - (amountOut : ℤ)) * ((FEE_SCALE - feeRate : ℕ) : ℤ)) =
      (((reserveOut - amountOut) * (FEE_SCALE - feeRate) : ℕ) : ℤ) by
        rw [Nat.cast_mul, Nat.cast_sub hlt.le],
    int_tdiv_coe] at h2'
  simp only [FEE_SCALE] at h2'
  have hd : 0 < (reserveOut - amountOut) * (10000 - feeRate) :=
    Nat.mul_pos (by omega) (by omega)
  have hltm : reserveIn * amountOut * 10000 <
      (amountIn + 1) * ((reserveOut - amountOut) * (10000 - feeRate)) := by
    have hstep : amountIn * ((reserveOut - amountOut) * (10000 - feeRate)) <
        (amountIn + 1) * ((reserveOut - amountOut) * (10000 - feeRate)) :=
      (Nat.mul_lt_mul_right hd).2 (Nat.lt_succ_self amountIn)
    omega
  have hq_le : reserveIn * amountOut * 10000 /
      ((reserveOut - amountOut) * (10000 - feeRate)) ≤ amountIn :=
    Nat.lt_succ_iff.1 ((Nat.div_lt_iff_lt_mul hd).2 hltm)
  generalize hg : reserveIn * amountOut * 10000 /
      ((reserveOut - amountOut) * (10000 - feeRate)) = k at h2' hq_le
  omega

/-- Witness for C2 amended at the exact-division example: the
recovered input 10001 is within amountIn + 1 = 10001. -/
theorem getAmountIn_roundtrip_witness : (10001 : ℤ) ≤ ((10000 : ℕ) : ℤ) + 1 :=
  getAmountIn_roundtrip 30 10000 9970 2 1 10001
    (by decide) (by decide) (by decide) (by decide) (by decide) (by decide) (by decide)

/-- Claim C4 records a code bug: for reserveOut < amountOut the
denominator of getAmountIn is negative, the truncated quotient plus
one is returned as a negative "required input" with no error at all,
and on the boundary reserveOut = amountOut the division by zero
produces Infinity, which surfaces as the U64 overflow error.  No
InsufficientLiquidity failure exists anywhere in the function. -/
theorem getAmountIn_no_insufficient_liquidity :
    getAmountIn 30 2000 1000 1000 = .ok (-2005)
    ∧ getAmountIn 30 1000 1000 1000 = .error .overflow :=
  ⟨by decide, by decide⟩

/-- floor(sqrt(1000 * 2000)) = 1414. -/
lemma sqrt_of_first_deposit : Nat.sqrt (1000 * 2000) = 1414 :=
  (Nat.eq_sqrt.2 ⟨by norm_num, by norm_num⟩).symm

/-- Counterexample to C7 as stated: with both reserves 1 and an LP
supply of U64_MAX, desired contributions (2, 2) drive both
proportional amounts to 2 U64_MAX, so the call fails with Overflow
instead of returning their minimum. -/
theorem getExpectedLiquidityAmount_cex :
    getExpectedLiquidityAmount 2 2 1 1 U64_MAX = .error .overflow
    ∧ getExpectedLiquidityAmount 2 2 1 1 U64_MAX ≠
        .ok (.fin ((min (U64_MAX * 2 / 1) (U64_MAX * 2 / 1) : ℕ) : ℤ)) :=
  ⟨by decide, by decide⟩

/-- Claim C7 amended: on the all-zero first deposit the result is
floor(sqrt(xOpt yOpt)) - 1000, and on positive reserves it is the
minimum of the two proportional amounts - in both cases provided the
value does not exceed U64_MAX, in which case the call fails with
Overflow. -/
theorem getExpectedLiquidityAmount_spec :
    (∀ x y : ℕ, getExpectedLiquidityAmount x y 0 0 0 =
      if (U64_MAX : ℤ) < (Nat.sqrt (x * y) : ℤ) - 1000 then .error .overflow
      else .ok (.fin ((Nat.sqrt (x * y) : ℤ) - 1000)))
    ∧ (∀ x y xR yR lp : ℕ, 0 < xR → 0 < yR →
      getExpectedLiquidityAmount x y xR yR lp =
        if U64_MAX < min (lp * x / xR) (lp * y / yR) then .error .overflow
        else .ok (.fin ((min (lp * x / xR) (lp * y / yR) : ℕ) : ℤ))) := by
  constructor
  · intro x y
    simp [getExpectedLiquidityAmount]
  · intro x y xR yR lp hx hy
    simp only [getExpectedLiquidityAmount]
    rw [if_neg (by rintro ⟨h1, h2, h3⟩; exact hx.ne' h1)]
    simp only [bnDivFloor, if_neg hx.ne', if_neg hy.ne', bnLt, bnGtU64]
    by_cases hab : lp * x / xR < lp * y / yR
    · rw [if_pos (decide_eq_true (by exact_mod_cast hab)), min_eq_left hab.le]
      by_cases hb : U64_MAX < lp * x / xR
      · rw [if_pos (decide_eq_true (by exact_mod_cast hb)), if_pos hb]
      · rw [if_neg (by simp only [decide_eq_true_eq]; exact_mod_cast hb), if_neg hb]
    · rw [if_neg (by simp only [decide_eq_true_eq]; exact_mod_cast hab),
        min_eq_right (le_of_not_lt hab)]
      by_cases hb : U64_MAX < lp * y / yR
      · rw [if_pos (decide_eq_true (by exact_mod_cast hb)), if_pos hb]
      · rw [if_neg (by simp only [decide_eq_true_eq]; exact_mod_cast hb), if_neg hb]

/-- Witness for C7 amended: the proportional-add example mints
min(100, 100) = 100, and the first-deposit example mints
floor(sqrt(1000 * 2000)) - 1000 = 414. -/
theorem getExpectedLiquidityAmount_spec_witness :
    getExpectedLiquidityAmount 100 200 1000 2000 1000 = .ok (.fin 100)
    ∧ getExpectedLiquidityAmount 1000 2000 0 0 0 = .ok (.fin 414) := by
  constructor
  · rw [getExpectedLiquidityAmount_spec.2 100 200 1000 2000 1000 (by decide) (by decide)]
    decide
  · rw [getExpectedLiquidityAmount_spec.1 1000 2000, sqrt_of_first_deposit]
    decide
